import Mathlib

/-!
Verification of the `indicatorToJs` translator from robzan8/indiconv.

The repository's single source file contains two variants of the translator,
separated by a document separator:

* `IndiConv`   — the main variant (field references `$name`, array literals,
  and the bespoke functions `INCLUDES`, `PERCENT`, `COUNTFORMS`);
* `IndiConvV2` — the related variant that dispatches function calls through a
  generic name-substitution table (`func2jsfunc`, containing `SUM`).

Both are embedded shallowly: strings are `List Char`, the token stream is a
`List Token` consumed from the head (the source reverses the array and pops
from the tail, which is the same access pattern), exceptions are an explicit
`Err` sum, and the mutually recursive parser takes a fuel argument so that all
definitions are structurally recursive and computable by kernel reduction.
Popping or peeking an empty token array — which in the source would produce
`undefined` and crash — is modelled by the distinguished error `Err.underflow`;
exhausting fuel is `Err.outOfFuel`.  Neither can occur on the runs below.
-/

namespace IndiConv

/-- Conversion of embedded strings back to `String` for error messages. -/
def ofChars (s : List Char) : String := String.mk s

/-- ASCII whitespace, as trimmed by JavaScript's `String.prototype.trim`
and matched by `\s` (restricted to the ASCII range, which is all the
formula language ever meets). -/
def wsChar (c : Char) : Bool :=
  decide (c = ' ' ∨ c = '\t' ∨ c = '\n' ∨ c = '\r' ∨ c = Char.ofNat 11 ∨ c = Char.ofNat 12)

/-- The character class `[0-9]`, i.e. the source's `c >= '0' && c <= '9'`. -/
def isDigitChar (c : Char) : Bool := decide ('0' ≤ c ∧ c ≤ '9')

/-- The character class `[a-zA-Z_]` of the source's identifier regexes. -/
def isIdentStart (c : Char) : Bool :=
  decide (('a' ≤ c ∧ c ≤ 'z') ∨ ('A' ≤ c ∧ c ≤ 'Z') ∨ c = '_')

/-- The regex class `\w`, i.e. `[a-zA-Z0-9_]`. -/
def isWordChar (c : Char) : Bool := isIdentStart c || isDigitChar c

/-- Token categories, in the source enum's declaration order (the numeric
order matters: binary operators `Plus`..`GreaterOrEq` form a contiguous
range that the parser tests with a single range check). -/
inductive TokenType where
  | END | LParen | RParen | LBracket | RBracket | Comma
  | Plus | Minus | Mul | Div | Less | LessOrEq | Greater | GreaterOrEq
  | Equal | NotEqual | Not | String | Number | Indent | Name
deriving DecidableEq, Repr

/-- The enum ordinal of a token type, as in the source `enum TokenType`. -/
def TokenType.toNat : TokenType → Nat
  | .END => 0 | .LParen => 1 | .RParen => 2 | .LBracket => 3 | .RBracket => 4
  | .Comma => 5 | .Plus => 6 | .Minus => 7 | .Mul => 8 | .Div => 9
  | .Less => 10 | .LessOrEq => 11 | .Greater => 12 | .GreaterOrEq => 13
  | .Equal => 14 | .NotEqual => 15 | .Not => 16 | .String => 17
  | .Number => 18 | .Indent => 19 | .Name => 20

/-- A token: its category and the exact matched text. -/
structure Token where
  type : TokenType
  text : List Char
deriving DecidableEq, Repr

/-- Errors thrown by the translator.  The first five constructors carry the
source's `Error` messages; `underflow` models the crash of popping an empty
array, and `outOfFuel` is the fuel-exhaustion artifact of the embedding. -/
inductive Err where
  | lexical (msg : String)
  | unexpectedEndOfStream
  | unexpectedToken (msg : String)
  | unsupportedFunction (msg : String)
  | invalidExpectedEnd
  | underflow
  | outOfFuel
deriving DecidableEq, Repr

/-- The body matcher of the string-literal regex `/^"(\\\\|\\"|[^"])*"/`,
applied after the opening quote, with fuel (each recursive call consumes at
least one character, so `length + 1` fuel is always enough).  Returns the
matched body (closing quote included) and the rest.  The nested fallbacks
reproduce the regex engine's backtracking: at a backslash the two-character
escapes `\\` and `\"` are preferred, and on failure the backslash alone is
re-matched as `[^"]`. -/
def strBodyFuel : Nat → List Char → Option (List Char × List Char)
  | 0, _ => none
  | _, [] => none
  | fuel + 1, c :: t =>
    if c = '"' then some (['"'], t)
    else if c = '\\' then
      match t with
      | c2 :: t2 =>
        if c2 = '\\' ∨ c2 = '"' then
          match strBodyFuel fuel t2 with
          | some (m, r) => some (c :: c2 :: m, r)
          | none =>
            match strBodyFuel fuel t with
            | some (m, r) => some (c :: m, r)
            | none => none
        else
          match strBodyFuel fuel t with
          | some (m, r) => some (c :: m, r)
          | none => none
      | [] => none
    else
      match strBodyFuel fuel t with
      | some (m, r) => some (c :: m, r)
      | none => none

/-- The string-literal body matcher with its fuel supplied. -/
def strBody (s : List Char) : Option (List Char × List Char) :=
  strBodyFuel (s.length + 1) s

/-- The optional fraction group `(\.\d+)?` of the number regex. -/
def scanFrac : List Char → List Char × List Char
  | [] => ([], [])
  | c :: t =>
    if c = '.' then
      let ds := t.takeWhile isDigitChar
      if ds = [] then ([], c :: t) else (c :: ds, t.dropWhile isDigitChar)
    else ([], c :: t)

/-- The optional exponent group `([eE][\+\-]?\d+)?` of the number regex. -/
def scanExpo : List Char → List Char × List Char
  | c :: t =>
    if c = 'e' ∨ c = 'E' then
      match t with
      | c2 :: t2 =>
        if c2 = '+' ∨ c2 = '-' then
          let ds := t2.takeWhile isDigitChar
          if ds = [] then ([], c :: t) else (c :: c2 :: ds, t2.dropWhile isDigitChar)
        else
          let ds := t.takeWhile isDigitChar
          if ds = [] then ([], c :: t) else (c :: ds, t.dropWhile isDigitChar)
      | [] => ([], [c])
    else ([], c :: t)
  | [] => ([], [])

/-- The number regex `/^\d+(\.\d+)?([eE][\+\-]?\d+)?/` (the caller has
checked that the first character is a digit).  Returns match and rest. -/
def scanNumber (s : List Char) : List Char × List Char :=
  let ip := s.takeWhile isDigitChar
  let r1 := s.dropWhile isDigitChar
  let p1 := scanFrac r1
  let p2 := scanExpo p1.2
  (ip ++ p1.1 ++ p2.1, p2.2)

/-- `firstToken` of the main variant: classify the first character of `s`
(which must not begin with whitespace) and produce one token. -/
def firstToken (s : List Char) : Except Err Token :=
  match s with
  | [] => .ok ⟨.END, []⟩
  | c :: t =>
    if c = '(' then .ok ⟨.LParen, ['(']⟩
    else if c = ')' then .ok ⟨.RParen, [')']⟩
    else if c = '[' then .ok ⟨.LBracket, ['[']⟩
    else if c = ']' then .ok ⟨.RBracket, [']']⟩
    else if c = ',' then .ok ⟨.Comma, [',']⟩
    else if c = '+' then .ok ⟨.Plus, ['+']⟩
    else if c = '-' then .ok ⟨.Minus, ['-']⟩
    else if c = '*' then .ok ⟨.Mul, ['*']⟩
    else if c = '/' then .ok ⟨.Div, ['/']⟩
    else if c = '<' then
      if t.head? = some '=' then .ok ⟨.LessOrEq, ['<', '=']⟩ else .ok ⟨.Less, ['<']⟩
    else if c = '>' then
      if t.head? = some '=' then .ok ⟨.GreaterOrEq, ['>', '=']⟩ else .ok ⟨.Greater, ['>']⟩
    else if c = '=' then .ok ⟨.Equal, ['=']⟩
    else if c = '!' then
      if t.head? = some '=' then .ok ⟨.NotEqual, ['!', '=']⟩ else .ok ⟨.Not, ['!']⟩
    else if c = '$' then
      match t with
      | c1 :: t1 =>
        if isIdentStart c1 then .ok ⟨.Name, '$' :: c1 :: t1.takeWhile isWordChar⟩
        else .error (.lexical ("invalid field name in: " ++ ofChars s))
      | [] => .error (.lexical ("invalid field name in: " ++ ofChars s))
    else if c = '"' then
      match strBody t with
      | some (m, _) => .ok ⟨.String, '"' :: m⟩
      | none => .error (.lexical ("unterminated string literal in: " ++ ofChars s))
    else if isDigitChar c then .ok ⟨.Number, (scanNumber s).1⟩
    else if isIdentStart c then .ok ⟨.Indent, c :: t.takeWhile isWordChar⟩
    else if wsChar c then .error (.lexical "string s has a leading whitespace")
    else .error (.lexical ("unrecognized token in: " ++ ofChars s))

/-- Left part of JavaScript `s.trim()`. -/
def trimLeft (s : List Char) : List Char := s.dropWhile wsChar

/-- Right part of JavaScript `s.trim()`. -/
def trimRight (s : List Char) : List Char := (s.reverse.dropWhile wsChar).reverse

/-- JavaScript `s.trim()`: strip whitespace from both ends. -/
def trim (s : List Char) : List Char := trimRight (trimLeft s)

/-- The `tokenize` loop, with fuel.  Each iteration trims the input, takes
one token, and stops after pushing the `END` token. -/
def tokenizeFuel : Nat → List Char → Except Err (List Token)
  | 0, _ => .error .outOfFuel
  | fuel + 1, s =>
    let s1 := trim s
    match firstToken s1 with
    | .error e => .error e
    | .ok t =>
      if t.type = .END then .ok [t]
      else
        match tokenizeFuel fuel (s1.drop t.text.length) with
        | .error e => .error e
        | .ok ts => .ok (t :: ts)

/-- `tokenize`: each non-END token consumes at least one character, so
`s.length + 1` steps of fuel always suffice. -/
def tokenize (s : List Char) : Except Err (List Token) := tokenizeFuel (s.length + 1) s

/-- `printTokens`: re-serialize a token stream for error messages.  The
source pops from the tail of the reversed array, which is the head of our
stream, so this walks the list in order.  Binary operators (the range
`Plus`..`NotEqual`) print with surrounding spaces, a comma prints as `", "`,
everything else prints its own text. -/
def printTokens : List Token → List Char
  | [] => []
  | tok :: rest =>
    (if TokenType.Plus.toNat ≤ tok.type.toNat ∧ tok.type.toNat ≤ TokenType.NotEqual.toNat then
       ' ' :: tok.text ++ [' ']
     else if tok.type = .Comma then [',', ' ']
     else tok.text) ++ printTokens rest

/-- `unexpectedTokenError tok rest`: the source pushes `tok` back and prints
the whole unparsed remainder; for the `END` token it reports the premature
end of the stream instead. -/
def unexpectedTokenError (tok : Token) (rest : List Token) : Err :=
  if tok.type = .END then .unexpectedEndOfStream
  else .unexpectedToken ("unexpected token at the start of: " ++ ofChars (printTokens (tok :: rest)))

/-- `consume`: pop one token and require its type, returning the token and
the rest of the stream. -/
def consume (revToks : List Token) (expectedType : TokenType) : Except Err (Token × List Token) :=
  match revToks with
  | [] => .error .underflow
  | tok :: rest =>
    if tok.type = expectedType then .ok (tok, rest) else .error (unexpectedTokenError tok rest)

/-- The binary-operator step of `parseExpression` (source lines 228-253):
the contiguous range `Plus`..`GreaterOrEq` passes through with surrounding
spaces, the identifiers `AND`/`OR` become `&&`/`||`, `=` becomes `===`,
`!=` becomes `!==`, anything else is an unexpected-token error. -/
def parseOperator (tok : Token) (rest : List Token) : Except Err (List Char) :=
  if TokenType.Plus.toNat ≤ tok.type.toNat ∧ tok.type.toNat ≤ TokenType.GreaterOrEq.toNat then
    .ok (' ' :: tok.text ++ [' '])
  else
    match tok.type with
    | .Indent =>
      if tok.text = "AND".data then .ok " && ".data
      else if tok.text = "OR".data then .ok " || ".data
      else .error (unexpectedTokenError tok rest)
    | .Equal => .ok " === ".data
    | .NotEqual => .ok " !== ".data
    | _ => .error (unexpectedTokenError tok rest)

/-- The end-of-expression test of `parseExpression`: the peeked type ends
the expression if it equals `expectedEnd`; a `Comma` context also accepts
`RParen`, and an `RBracket` context also accepts `Comma`. -/
def isExprEnd (type expectedEnd : TokenType) : Prop :=
  type = expectedEnd ∨ (expectedEnd = .Comma ∧ type = .RParen) ∨
    (expectedEnd = .RBracket ∧ type = .Comma)

instance (type expectedEnd : TokenType) : Decidable (isExprEnd type expectedEnd) := by
  unfold isExprEnd; infer_instance

mutual

/-- One primary of `parseExpression`'s loop: an identifier (or function
call), a field name rewritten to `**name**`, a literal, a unary sign (two
consecutive signs are an error, checked by peeking and then popping the
second sign), a unary `!`, a parenthesized sub-expression, or a bracketed
list.  The source folds this into the top of its `while` loop; the unary
cases `continue` there, which is this function's self-recursion. -/
def parsePrimary : Nat → List Token → Except Err (List Char × List Token)
  | 0, _ => .error .outOfFuel
  | fuel + 1, revToks =>
    match revToks with
    | [] => .error .underflow
    | tok :: rest =>
      match tok.type with
      | .Indent =>
        match rest with
        | [] => .error .underflow
        | next :: _ =>
          if next.type = .LParen then parseFunctionCall fuel tok.text rest
          else .ok (tok.text, rest)
      | .Name => .ok ('*' :: '*' :: tok.text.drop 1 ++ ['*', '*'], rest)
      | .String => .ok (tok.text, rest)
      | .Number => .ok (tok.text, rest)
      | .Plus | .Minus =>
        match rest with
        | [] => .error .underflow
        | next :: rest2 =>
          if next.type = .Plus ∨ next.type = .Minus then
            .error (unexpectedTokenError next rest2)
          else
            match parsePrimary fuel rest with
            | .error e => .error e
            | .ok (js, toks) => .ok (tok.text ++ js, toks)
      | .Not =>
        match parsePrimary fuel rest with
        | .error e => .error e
        | .ok (js, toks) => .ok ('!' :: js, toks)
      | .LParen =>
        match parseExpression fuel .RParen rest with
        | .error e => .error e
        | .ok (inner, toks1) =>
          match consume toks1 .RParen with
          | .error e => .error e
          | .ok (_, toks2) => .ok ('(' :: inner ++ [')'], toks2)
      | .LBracket =>
        match parseList fuel .RBracket rest with
        | .error e => .error e
        | .ok (inner, toks1) =>
          match consume toks1 .RBracket with
          | .error e => .error e
          | .ok (_, toks2) => .ok ('[' :: inner ++ [']'], toks2)
      | _ => .error (unexpectedTokenError tok rest)

/-- The loop of `parseExpression`: parse a primary, peek at the next token;
if it ends the expression, return without consuming it, otherwise consume
one binary operator and continue with the right-hand operand. -/
def parseExpressionGo : Nat → TokenType → List Char → List Token → Except Err (List Char × List Token)
  | 0, _, _, _ => .error .outOfFuel
  | fuel + 1, expectedEnd, js, revToks =>
    match parsePrimary fuel revToks with
    | .error e => .error e
    | .ok (pjs, toks1) =>
      match toks1 with
      | [] => .error .underflow
      | next :: rest2 =>
        if isExprEnd next.type expectedEnd then .ok (js ++ pjs, toks1)
        else
          match parseOperator next rest2 with
          | .error e => .error e
          | .ok opJs => parseExpressionGo fuel expectedEnd (js ++ pjs ++ opJs) rest2

/-- `parseExpression`: check the terminator is one of the four allowed
token types, then run the expression loop with an empty accumulator. -/
def parseExpression : Nat → TokenType → List Token → Except Err (List Char × List Token)
  | 0, _, _ => .error .outOfFuel
  | fuel + 1, expectedEnd, revToks =>
    if expectedEnd = .END ∨ expectedEnd = .RParen ∨ expectedEnd = .Comma ∨
        expectedEnd = .RBracket then
      parseExpressionGo fuel expectedEnd [] revToks
    else .error .invalidExpectedEnd

/-- `parseFunctionCall` of the main variant: the three bespoke functions
`INCLUDES`, `PERCENT` and `COUNTFORMS`; any other name is an
unsupported-function error. -/
def parseFunctionCall : Nat → List Char → List Token → Except Err (List Char × List Token)
  | 0, _, _ => .error .outOfFuel
  | fuel + 1, name, revToks =>
    if name = "INCLUDES".data then
      match consume revToks .LParen with
      | .error e => .error e
      | .ok (_, t1) =>
        match parseExpression fuel .Comma t1 with
        | .error e => .error e
        | .ok (a, t2) =>
          match consume t2 .Comma with
          | .error e => .error e
          | .ok (_, t3) =>
            match parseExpression fuel .Comma t3 with
            | .error e => .error e
            | .ok (b, t4) =>
              match consume t4 .RParen with
              | .error e => .error e
              | .ok (_, t5) => .ok ('(' :: a ++ ").includes(".data ++ b ++ [')'], t5)
    else if name = "PERCENT".data then
      match consume revToks .LParen with
      | .error e => .error e
      | .ok (_, t1) =>
        match parseExpression fuel .Comma t1 with
        | .error e => .error e
        | .ok (a, t2) =>
          match consume t2 .Comma with
          | .error e => .error e
          | .ok (_, t3) =>
            match parseExpression fuel .Comma t3 with
            | .error e => .error e
            | .ok (b, t4) =>
              match consume t4 .RParen with
              | .error e => .error e
              | .ok (_, t5) => .ok ("getTrend(".data ++ a ++ ", ".data ++ b ++ [')'], t5)
    else if name = "COUNTFORMS".data then parseCountForms fuel revToks
    else .error (.unsupportedFunction ("unsupported function: " ++ ofChars name))

/-- `parseCountForms`: a bare form-name identifier gives the
`countOccurrences` call with an empty condition list; a comma and a
condition give the `countConditionalOccurrences` call with the condition's
translation embedded in a template string between backticks. -/
def parseCountForms : Nat → List Token → Except Err (List Char × List Token)
  | 0, _ => .error .outOfFuel
  | fuel + 1, revToks =>
    match consume revToks .LParen with
    | .error e => .error e
    | .ok (_, t1) =>
      match consume t1 .Indent with
      | .error e => .error e
      | .ok (formTok, t2) =>
        match t2 with
        | [] => .error .underflow
        | tok :: rest =>
          match tok.type with
          | .RParen => .ok ("countOccurrences(".data ++ formTok.text ++ ", [])".data, rest)
          | .Comma =>
            match parseExpression fuel .Comma rest with
            | .error e => .error e
            | .ok (condition, t3) =>
              match consume t3 .RParen with
              | .error e => .error e
              | .ok (_, t4) =>
                .ok ("countConditionalOccurrences(".data ++ formTok.text ++ ", [], `".data ++
                  condition ++ "`)".data, t4)
          | _ => .error (unexpectedTokenError tok rest)

/-- `parseList`: empty if the next token closes the list, otherwise the
comma-separated-expressions loop. -/
def parseList : Nat → TokenType → List Token → Except Err (List Char × List Token)
  | 0, _, _ => .error .outOfFuel
  | fuel + 1, expectedEnd, revToks =>
    if expectedEnd = .Comma ∨ expectedEnd = .RBracket then
      match revToks with
      | [] => .error .underflow
      | next :: _ =>
        if next.type = .RParen ∨ next.type = .RBracket then .ok ([], revToks)
        else parseListLoop fuel expectedEnd [] revToks
    else .error .invalidExpectedEnd

/-- The loop of `parseList`: parse one expression; stop before a closing
token, otherwise consume the separating comma, emit `", "`, and continue. -/
def parseListLoop : Nat → TokenType → List Char → List Token → Except Err (List Char × List Token)
  | 0, _, _, _ => .error .outOfFuel
  | fuel + 1, expectedEnd, js, revToks =>
    match parseExpression fuel expectedEnd revToks with
    | .error e => .error e
    | .ok (ejs, toks1) =>
      match toks1 with
      | [] => .error .underflow
      | next :: _ =>
        if next.type = .RParen ∨ next.type = .RBracket then .ok (js ++ ejs, toks1)
        else
          match consume toks1 .Comma with
          | .error e => .error e
          | .ok (_, toks2) => parseListLoop fuel expectedEnd (js ++ ejs ++ ", ".data) toks2

end

/-- `indicatorToJs`: tokenize the formula and run the top-level expression
parse expecting the `END` terminator (which is peeked, never consumed); the
fuel bound is generous, every parser call consumes fuel only alongside
progress through the token list. -/
def indicatorToJs (formula : List Char) : Except Err (List Char) :=
  match tokenize formula with
  | .error e => .error e
  | .ok toks =>
    match parseExpression (8 * toks.length + 32) .END toks with
    | .error e => .error e
    | .ok (js, _) => .ok js

end IndiConv

namespace IndiConvV2

open IndiConv (ofChars wsChar isDigitChar isIdentStart isWordChar TokenType Token Err
  strBody scanNumber trim isExprEnd)

/-- `firstToken` of the generic-dispatch variant: identical to the main
variant's except that there is no `$`-field case, so a `$` falls through to
the unrecognized-token error. -/
def firstToken (s : List Char) : Except Err Token :=
  match s with
  | [] => .ok ⟨.END, []⟩
  | c :: t =>
    if c = '(' then .ok ⟨.LParen, ['(']⟩
    else if c = ')' then .ok ⟨.RParen, [')']⟩
    else if c = '[' then .ok ⟨.LBracket, ['[']⟩
    else if c = ']' then .ok ⟨.RBracket, [']']⟩
    else if c = ',' then .ok ⟨.Comma, [',']⟩
    else if c = '+' then .ok ⟨.Plus, ['+']⟩
    else if c = '-' then .ok ⟨.Minus, ['-']⟩
    else if c = '*' then .ok ⟨.Mul, ['*']⟩
    else if c = '/' then .ok ⟨.Div, ['/']⟩
    else if c = '<' then
      if t.head? = some '=' then .ok ⟨.LessOrEq, ['<', '=']⟩ else .ok ⟨.Less, ['<']⟩
    else if c = '>' then
      if t.head? = some '=' then .ok ⟨.GreaterOrEq, ['>', '=']⟩ else .ok ⟨.Greater, ['>']⟩
    else if c = '=' then .ok ⟨.Equal, ['=']⟩
    else if c = '!' then
      if t.head? = some '=' then .ok ⟨.NotEqual, ['!', '=']⟩ else .ok ⟨.Not, ['!']⟩
    else if c = '"' then
      match strBody t with
      | some (m, _) => .ok ⟨.String, '"' :: m⟩
      | none => .error (.lexical ("unterminated string literal in: " ++ ofChars s))
    else if isDigitChar c then .ok ⟨.Number, (scanNumber s).1⟩
    else if isIdentStart c then .ok ⟨.Indent, c :: t.takeWhile isWordChar⟩
    else if wsChar c then .error (.lexical "string s has a leading whitespace")
    else .error (.lexical ("unrecognized token in: " ++ ofChars s))

/-- The `tokenize` loop of the generic-dispatch variant. -/
def tokenizeFuel : Nat → List Char → Except Err (List Token)
  | 0, _ => .error .outOfFuel
  | fuel + 1, s =>
    let s1 := trim s
    match firstToken s1 with
    | .error e => .error e
    | .ok t =>
      if t.type = .END then .ok [t]
      else
        match tokenizeFuel fuel (s1.drop t.text.length) with
        | .error e => .error e
        | .ok ts => .ok (t :: ts)

/-- `tokenize` of the generic-dispatch variant. -/
def tokenize (s : List Char) : Except Err (List Token) := tokenizeFuel (s.length + 1) s

/-- This variant's `unexpectedTokenError` reports only the token's text. -/
def unexpectedTokenError (t : Token) : Err :=
  if t.type = .END then .unexpectedEndOfStream
  else .unexpectedToken ("unexpected token: " ++ ofChars t.text)

/-- This variant's `consume` validates the popped token's type. -/
def consume (revToks : List Token) (expectedType : TokenType) : Except Err (List Token) :=
  match revToks with
  | [] => .error .underflow
  | tok :: rest =>
    if tok.type = expectedType then .ok rest else .error (unexpectedTokenError tok)

/-- The immutable `func2jsfunc` name-substitution table.  In the source it
is a plain object literal, so the bracket lookup `func2jsfunc[name]` also
reaches the members the literal inherits from `Object.prototype`; for those
names the lookup is non-null and the `js == null` guard of
`parseFunctionCall` does not fire.  The only own property is `SUM`.  The
parser only ever appends the looked-up value to the output string, so each
inherited member is modelled by the string JavaScript coerces it to: the
standard native-function string form for the inherited methods, and the
object form for the proto accessor, whose value is `Object.prototype`
itself.  Every other name yields `undefined`, modelled as `none`. -/
def func2jsfunc (name : List Char) : Option (List Char) :=
  if name = "SUM".data then some "sumConditionalOccurrences".data
  else if name = "constructor".data then
    some "function Object() \x7b [native code] \x7d".data
  else if name = "hasOwnProperty".data then
    some "function hasOwnProperty() \x7b [native code] \x7d".data
  else if name = "isPrototypeOf".data then
    some "function isPrototypeOf() \x7b [native code] \x7d".data
  else if name = "propertyIsEnumerable".data then
    some "function propertyIsEnumerable() \x7b [native code] \x7d".data
  else if name = "toLocaleString".data then
    some "function toLocaleString() \x7b [native code] \x7d".data
  else if name = "toString".data then
    some "function toString() \x7b [native code] \x7d".data
  else if name = "valueOf".data then
    some "function valueOf() \x7b [native code] \x7d".data
  else if name = "__defineGetter__".data then
    some "function __defineGetter__() \x7b [native code] \x7d".data
  else if name = "__defineSetter__".data then
    some "function __defineSetter__() \x7b [native code] \x7d".data
  else if name = "__lookupGetter__".data then
    some "function __lookupGetter__() \x7b [native code] \x7d".data
  else if name = "__lookupSetter__".data then
    some "function __lookupSetter__() \x7b [native code] \x7d".data
  else if name = "__proto__".data then some "[object Object]".data
  else none

/-- This variant's binary-operator step: pass-through operators and the
translated ones are emitted without surrounding spaces. -/
def parseOperator (tok : Token) : Except Err (List Char) :=
  if TokenType.Plus.toNat ≤ tok.type.toNat ∧ tok.type.toNat ≤ TokenType.GreaterOrEq.toNat then
    .ok tok.text
  else
    match tok.type with
    | .Indent =>
      if tok.text = "AND".data then .ok "&&".data
      else if tok.text = "OR".data then .ok "||".data
      else .error (unexpectedTokenError tok)
    | .Equal => .ok "===".data
    | .NotEqual => .ok "!==".data
    | _ => .error (unexpectedTokenError tok)

mutual

/-- One primary of this variant's expression loop: no field names and no
bracketed lists (both fall to the unexpected-token default), and the
consecutive-sign error reports the peeked token without popping it. -/
def parsePrimary : Nat → List Token → Except Err (List Char × List Token)
  | 0, _ => .error .outOfFuel
  | fuel + 1, revToks =>
    match revToks with
    | [] => .error .underflow
    | tok :: rest =>
      match tok.type with
      | .Indent =>
        match rest with
        | [] => .error .underflow
        | next :: _ =>
          if next.type = .LParen then parseFunctionCall fuel tok.text rest
          else .ok (tok.text, rest)
      | .String => .ok (tok.text, rest)
      | .Number => .ok (tok.text, rest)
      | .Plus | .Minus =>
        match rest with
        | [] => .error .underflow
        | next :: _ =>
          if next.type = .Plus ∨ next.type = .Minus then
            .error (unexpectedTokenError next)
          else
            match parsePrimary fuel rest with
            | .error e => .error e
            | .ok (js, toks) => .ok (tok.text ++ js, toks)
      | .Not =>
        match parsePrimary fuel rest with
        | .error e => .error e
        | .ok (js, toks) => .ok ('!' :: js, toks)
      | .LParen =>
        match parseExpression fuel .RParen rest with
        | .error e => .error e
        | .ok (inner, toks1) =>
          match consume toks1 .RParen with
          | .error e => .error e
          | .ok toks2 => .ok ('(' :: inner ++ [')'], toks2)
      | _ => .error (unexpectedTokenError tok)

/-- The expression loop of the generic-dispatch variant. -/
def parseExpressionGo : Nat → TokenType → List Char → List Token → Except Err (List Char × List Token)
  | 0, _, _, _ => .error .outOfFuel
  | fuel + 1, expectedEnd, js, revToks =>
    match parsePrimary fuel revToks with
    | .error e => .error e
    | .ok (pjs, toks1) =>
      match toks1 with
      | [] => .error .underflow
      | next :: rest2 =>
        if isExprEnd next.type expectedEnd then .ok (js ++ pjs, toks1)
        else
          match parseOperator next with
          | .error e => .error e
          | .ok opJs => parseExpressionGo fuel expectedEnd (js ++ pjs ++ opJs) rest2

/-- `parseExpression` of the generic-dispatch variant. -/
def parseExpression : Nat → TokenType → List Token → Except Err (List Char × List Token)
  | 0, _, _ => .error .outOfFuel
  | fuel + 1, expectedEnd, revToks =>
    if expectedEnd = .END ∨ expectedEnd = .RParen ∨ expectedEnd = .Comma ∨
        expectedEnd = .RBracket then
      parseExpressionGo fuel expectedEnd [] revToks
    else .error .invalidExpectedEnd

/-- `parseFunctionCall` of the generic-dispatch variant: look the name up
in `func2jsfunc`, substitute it, and pass the arguments through as a comma
list; an absent name is an unsupported-function error. -/
def parseFunctionCall : Nat → List Char → List Token → Except Err (List Char × List Token)
  | 0, _, _ => .error .outOfFuel
  | fuel + 1, name, revToks =>
    match func2jsfunc name with
    | none => .error (.unsupportedFunction ("Unsupported function: " ++ ofChars name))
    | some js =>
      match consume revToks .LParen with
      | .error e => .error e
      | .ok t1 =>
        match parseList fuel .Comma t1 with
        | .error e => .error e
        | .ok (args, t2) =>
          match consume t2 .RParen with
          | .error e => .error e
          | .ok t3 => .ok (js ++ '(' :: args ++ [')'], t3)

/-- `parseList` of the generic-dispatch variant. -/
def parseList : Nat → TokenType → List Token → Except Err (List Char × List Token)
  | 0, _, _ => .error .outOfFuel
  | fuel + 1, expectedEnd, revToks =>
    if expectedEnd = .Comma ∨ expectedEnd = .RBracket then
      match revToks with
      | [] => .error .underflow
      | next :: _ =>
        if next.type = .RParen ∨ next.type = .RBracket then .ok ([], revToks)
        else parseListLoop fuel expectedEnd [] revToks
    else .error .invalidExpectedEnd

/-- The loop of this variant's `parseList`; the separator re-emits as a
bare `,`. -/
def parseListLoop : Nat → TokenType → List Char → List Token → Except Err (List Char × List Token)
  | 0, _, _, _ => .error .outOfFuel
  | fuel + 1, expectedEnd, js, revToks =>
    match parseExpression fuel expectedEnd revToks with
    | .error e => .error e
    | .ok (ejs, toks1) =>
      match toks1 with
      | [] => .error .underflow
      | next :: _ =>
        if next.type = .RParen ∨ next.type = .RBracket then .ok (js ++ ejs, toks1)
        else
          match consume toks1 .Comma with
          | .error e => .error e
          | .ok toks2 => parseListLoop fuel expectedEnd (js ++ ejs ++ [',']) toks2

end

/-- `indicatorToJs` of the generic-dispatch variant. -/
def indicatorToJs (formula : List Char) : Except Err (List Char) :=
  match tokenize formula with
  | .error e => .error e
  | .ok toks =>
    match parseExpression (8 * toks.length + 32) .END toks with
    | .error e => .error e
    | .ok (js, _) => .ok js

end IndiConvV2

namespace IndiConv

/-- A wellformed bare identifier: what the regex `[a-zA-Z_]\w*` matches
completely. -/
def validIdentB (s : List Char) : Bool :=
  match s with
  | [] => false
  | c :: t => isIdentStart c && t.all isWordChar

/-- `occursIn m s`: `m` occurs contiguously (as a substring) inside `s`. -/
def occursIn (m s : List Char) : Prop := ∃ u v, s = u ++ m ++ v

/-- The `END` token. -/
def tEND : Token := ⟨.END, []⟩

/-- The binary operators of the formula language, for stating the
operator-translation claims. -/
inductive BinOp where
  | plus | minus | mul | div | lt | le | gt | ge | and | or | eq | ne
deriving DecidableEq, Repr

/-- The source token of each binary operator. -/
def BinOp.tok : BinOp → Token
  | .plus => ⟨.Plus, ['+']⟩
  | .minus => ⟨.Minus, ['-']⟩
  | .mul => ⟨.Mul, ['*']⟩
  | .div => ⟨.Div, ['/']⟩
  | .lt => ⟨.Less, ['<']⟩
  | .le => ⟨.LessOrEq, "<=".data⟩
  | .gt => ⟨.Greater, ['>']⟩
  | .ge => ⟨.GreaterOrEq, ">=".data⟩
  | .and => ⟨.Indent, "AND".data⟩
  | .or => ⟨.Indent, "OR".data⟩
  | .eq => ⟨.Equal, ['=']⟩
  | .ne => ⟨.NotEqual, "!=".data⟩

/-- The JavaScript text the main variant emits for each binary operator:
the arithmetic/relational range passes through unchanged (with one space on
each side), `AND`/`OR` become `&&`/`||`, `=` becomes `===`, `!=` becomes
`!==`. -/
def BinOp.js : BinOp → List Char
  | .plus => " + ".data
  | .minus => " - ".data
  | .mul => " * ".data
  | .div => " / ".data
  | .lt => " < ".data
  | .le => " <= ".data
  | .gt => " > ".data
  | .ge => " >= ".data
  | .and => " && ".data
  | .or => " || ".data
  | .eq => " === ".data
  | .ne => " !== ".data

/-- The token stream of the formula `1 op1 1 op2 1 ... opN 1`, after the
leading number token: operator and operand alternate, ending in `END`. -/
def opsTail : List BinOp → List Token
  | [] => [tEND]
  | o :: tl => o.tok :: ⟨.Number, ['1']⟩ :: opsTail tl

/-- The translated text of the same formula, after the leading `1`. -/
def opsJs : List BinOp → List Char
  | [] => []
  | o :: tl => o.js ++ '1' :: opsJs tl

/-- A token acceptable at a binary-operator position: the contiguous
pass-through range `Plus`..`GreaterOrEq`, the identifiers `AND` and `OR`,
the equality operator and the inequality operator. -/
def isBinOpTok (tok : Token) : Prop :=
  (TokenType.Plus.toNat ≤ tok.type.toNat ∧ tok.type.toNat ≤ TokenType.GreaterOrEq.toNat) ∨
    (tok.type = .Indent ∧ (tok.text = "AND".data ∨ tok.text = "OR".data)) ∨
    tok.type = .Equal ∨ tok.type = .NotEqual

instance (tok : Token) : Decidable (isBinOpTok tok) := by
  unfold isBinOpTok; infer_instance

end IndiConv

namespace IndiConv

/-! ### Character-class lemmas -/

theorem ne_of_class {p : Char → Bool} {c : Char} (hc : p c = true) (d : Char)
    (hd : p d = false) : ¬(c = d) := by
  intro h; subst h; rw [hc] at hd; cases hd

theorem identStart_word {c : Char} (h : isIdentStart c = true) : isWordChar c = true := by
  simp [isWordChar, h]

theorem identStart_not_digit {c : Char} (hc : isIdentStart c = true) :
    isDigitChar c = false := by
  have h := of_decide_eq_true hc
  apply decide_eq_false
  rintro ⟨h0, h9⟩
  rcases h with ⟨ha, _⟩ | ⟨hA, _⟩ | rfl
  · exact absurd (le_trans ha h9) (by decide)
  · exact absurd (le_trans hA h9) (by decide)
  · exact absurd h9 (by decide)

theorem wordChar_not_ws {c : Char} (h : isWordChar c = true) : wsChar c = false := by
  apply decide_eq_false
  intro hws
  rcases hws with rfl | rfl | rfl | rfl | rfl | rfl <;> exact absurd h (by decide)

/-! ### Trim and scanner lemmas -/

theorem dropWhile_all_false {p : Char → Bool} {s : List Char}
    (h : ∀ c ∈ s, p c = false) : s.dropWhile p = s := by
  cases s with
  | nil => rfl
  | cons c t => simp [List.dropWhile, h c (by simp)]

theorem trim_no_ws {s : List Char} (h : ∀ c ∈ s, wsChar c = false) : trim s = s := by
  unfold trim trimLeft trimRight
  rw [dropWhile_all_false h, dropWhile_all_false (fun c hc => h c (by simpa using hc))]
  exact s.reverse_reverse

theorem takeWhile_all_true {p : Char → Bool} {s : List Char}
    (h : ∀ c ∈ s, p c = true) : s.takeWhile p = s :=
  List.takeWhile_eq_self_iff.mpr (by simpa using h)

/-- `firstToken` on a string that starts like a bare identifier. -/
theorem firstToken_identStart {c : Char} (t : List Char) (hc : isIdentStart c = true) :
    firstToken (c :: t) = .ok ⟨.Indent, c :: t.takeWhile isWordChar⟩ := by
  have ne : ∀ d : Char, isIdentStart d = false → ¬(c = d) := fun d hd => ne_of_class hc d hd
  simp only [firstToken]
  rw [if_neg (ne '(' (by decide)), if_neg (ne ')' (by decide)), if_neg (ne '[' (by decide)),
    if_neg (ne ']' (by decide)), if_neg (ne ',' (by decide)), if_neg (ne '+' (by decide)),
    if_neg (ne '-' (by decide)), if_neg (ne '*' (by decide)), if_neg (ne '/' (by decide)),
    if_neg (ne '<' (by decide)), if_neg (ne '>' (by decide)), if_neg (ne '=' (by decide)),
    if_neg (ne '!' (by decide)), if_neg (ne '$' (by decide)), if_neg (ne '"' (by decide)),
    if_neg (by simp [identStart_not_digit hc]), if_pos hc]

/-- `firstToken` on a field reference `$name…`. -/
theorem firstToken_dollar {c : Char} (t : List Char) (hc : isIdentStart c = true) :
    firstToken ('$' :: c :: t) = .ok ⟨.Name, '$' :: c :: t.takeWhile isWordChar⟩ := by
  simp [firstToken, hc]

/-- The parts of a wellformed identifier. -/
theorem validIdent_parts {s : List Char} (h : validIdentB s = true) :
    ∃ c t, s = c :: t ∧ isIdentStart c = true ∧ ∀ x ∈ t, isWordChar x = true := by
  cases s with
  | nil => simp [validIdentB] at h
  | cons c t =>
    refine ⟨c, t, rfl, ?_, ?_⟩
    · simp [validIdentB] at h; exact h.1
    · simp [validIdentB, List.all_eq_true] at h; exact h.2

/-- No character of a wellformed identifier is whitespace. -/
theorem validIdent_no_ws {c : Char} {t : List Char} (hc : isIdentStart c = true)
    (ht : ∀ x ∈ t, isWordChar x = true) : ∀ x ∈ c :: t, wsChar x = false := by
  intro x hx
  rcases hx with _ | hx
  · exact wordChar_not_ws (identStart_word hc)
  · exact wordChar_not_ws (ht x (by assumption))

/-- Tokenizing a lone wellformed identifier. -/
theorem tokenize_ident {c : Char} {t : List Char} (hc : isIdentStart c = true)
    (ht : ∀ x ∈ t, isWordChar x = true) :
    tokenize (c :: t) = .ok [⟨.Indent, c :: t⟩, tEND] := by
  show tokenizeFuel ((c :: t).length + 1) (c :: t) = _
  rw [show (c :: t).length + 1 = (t.length + 1) + 1 from by simp]
  simp only [tokenizeFuel, trim_no_ws (validIdent_no_ws hc ht), firstToken_identStart t hc,
    takeWhile_all_true ht]
  simp [tokenizeFuel, trim, trimLeft, trimRight, firstToken, tEND, List.drop_length]

/-- Tokenizing a lone field reference `$name`. -/
theorem tokenize_name {c : Char} {t : List Char} (hc : isIdentStart c = true)
    (ht : ∀ x ∈ t, isWordChar x = true) :
    tokenize ('$' :: c :: t) = .ok [⟨.Name, '$' :: c :: t⟩, tEND] := by
  have hno : ∀ x ∈ '$' :: c :: t, wsChar x = false := by
    intro x hx
    rw [List.mem_cons] at hx
    rcases hx with rfl | hx
    · decide
    · exact validIdent_no_ws hc ht x hx
  show tokenizeFuel (('$' :: c :: t).length + 1) ('$' :: c :: t) = _
  rw [show ('$' :: c :: t).length + 1 = (t.length + 2) + 1 from by simp]
  simp only [tokenizeFuel, trim_no_ws hno, firstToken_dollar t hc, takeWhile_all_true ht]
  simp [tokenizeFuel, trim, trimLeft, trimRight, firstToken, tEND, List.drop_length]

/-! ### Claim C2: field references -/

/-- C2.  For every valid identifier `name`, the field reference `$name`
translates to the placeholder `**name**`: the leading `$` is stripped and
exactly `name` is wrapped in the `**` delimiters. -/
theorem fieldRef_translation (s : List Char) (h : validIdentB s = true) :
    indicatorToJs ('$' :: s) = .ok ("**".data ++ s ++ "**".data) := by
  obtain ⟨c, t, rfl, hc, ht⟩ := validIdent_parts h
  simp only [indicatorToJs, tokenize_name hc ht]
  simp [parseExpression, parseExpressionGo, parsePrimary, isExprEnd, tEND]

/-- Witness for C2 at the spec's own example: `$age` becomes `**age**`. -/
theorem fieldRef_translation_witness :
    indicatorToJs "$age".data = .ok "**age**".data :=
  fieldRef_translation "age".data (by decide)

/-! ### Claim C3: COUNTFORMS -/

/-- C3.  `COUNTFORMS(Form)` with a bare form-name identifier translates to
`countOccurrences(Form, [])` with an empty condition list, and
`COUNTFORMS(Form, cond)` translates to
``countConditionalOccurrences(Form, [], `cond'`)`` where `cond'`, the
translation of `cond`, is embedded between backticks as a template-string
fragment rather than inlined as code; both stated over `parseCountForms`
for arbitrary condition parses, with end-to-end instances. -/
theorem countforms_translation :
    (∀ (fuel : Nat) (form : List Char) (rest : List Token),
      parseCountForms (fuel + 1)
          (⟨.LParen, ['(']⟩ :: ⟨.Indent, form⟩ :: ⟨.RParen, [')']⟩ :: rest) =
        .ok ("countOccurrences(".data ++ form ++ ", [])".data, rest)) ∧
    (∀ (fuel : Nat) (form js : List Char) (toks rest : List Token) (rp : Token),
      parseExpression fuel .Comma toks = .ok (js, rp :: rest) → rp.type = .RParen →
      parseCountForms (fuel + 1)
          (⟨.LParen, ['(']⟩ :: ⟨.Indent, form⟩ :: ⟨.Comma, [',']⟩ :: toks) =
        .ok ("countConditionalOccurrences(".data ++ form ++ ", [], `".data ++ js ++ "`)".data,
          rest)) ∧
    indicatorToJs "COUNTFORMS(visits)".data = .ok "countOccurrences(visits, [])".data ∧
    indicatorToJs "COUNTFORMS(visits, $age > 5)".data =
      .ok "countConditionalOccurrences(visits, [], `**age** > 5`)".data := by
  refine ⟨?_, ?_, rfl, rfl⟩
  · intro fuel form rest
    simp [parseCountForms, consume]
  · intro fuel form js toks rest rp hp hrp
    simp [parseCountForms, consume, hp, hrp]

/-- Witness for C3: both `parseCountForms` branches at concrete inputs. -/
theorem countforms_translation_witness :
    parseCountForms 4
        (⟨.LParen, ['(']⟩ :: ⟨.Indent, "visits".data⟩ :: ⟨.Comma, [',']⟩ ::
          [⟨.Number, ['1']⟩, ⟨.RParen, [')']⟩, tEND]) =
      .ok ("countConditionalOccurrences(visits, [], `1`)".data, [tEND]) ∧
    parseCountForms 1
        (⟨.LParen, ['(']⟩ :: ⟨.Indent, "visits".data⟩ :: ⟨.RParen, [')']⟩ :: [tEND]) =
      .ok ("countOccurrences(visits, [])".data, [tEND]) :=
  ⟨countforms_translation.2.1 3 "visits".data "1".data
      [⟨.Number, ['1']⟩, ⟨.RParen, [')']⟩, tEND] [tEND] ⟨.RParen, [')']⟩ (by rfl) (by rfl),
   countforms_translation.1 0 "visits".data [tEND]⟩

/-! ### Claim C4: INCLUDES -/

/-- C4.  `INCLUDES(list, item)` translates to `(L).includes(I)` where `L`
and `I` are the recursive translations of the two arguments; the call
requires exactly two parenthesized comma-separated arguments (one argument,
or a third one, hits the unexpected-token error of the enforced `,` and `)`
consumes, as the two end-to-end error instances show). -/
theorem includes_translation :
    (∀ (fuel : Nat) (a b : List Char) (toks1 toks2 rest : List Token) (cm rp : Token),
      parseExpression fuel .Comma toks1 = .ok (a, cm :: toks2) → cm.type = .Comma →
      parseExpression fuel .Comma toks2 = .ok (b, rp :: rest) → rp.type = .RParen →
      parseFunctionCall (fuel + 1) "INCLUDES".data (⟨.LParen, ['(']⟩ :: toks1) =
        .ok ('(' :: a ++ ").includes(".data ++ b ++ [')'], rest)) ∧
    indicatorToJs "INCLUDES($list, 3)".data = .ok "(**list**).includes(3)".data ∧
    indicatorToJs "INCLUDES(1)".data =
      .error (.unexpectedToken "unexpected token at the start of: )") ∧
    indicatorToJs "INCLUDES(1, 2, 3)".data =
      .error (.unexpectedToken "unexpected token at the start of: , 3)") := by
  refine ⟨?_, rfl, rfl, rfl⟩
  intro fuel a b toks1 toks2 rest cm rp h1 hcm h2 hrp
  simp [parseFunctionCall, consume, h1, hcm, h2, hrp]

/-- Witness for C4: `INCLUDES` on two concrete number arguments. -/
theorem includes_translation_witness :
    parseFunctionCall 4 "INCLUDES".data
        (⟨.LParen, ['(']⟩ :: [⟨.Number, ['1']⟩, ⟨.Comma, [',']⟩, ⟨.Number, ['2']⟩,
          ⟨.RParen, [')']⟩, tEND]) =
      .ok ("(1).includes(2)".data, [tEND]) :=
  includes_translation.1 3 "1".data "2".data
    [⟨.Number, ['1']⟩, ⟨.Comma, [',']⟩, ⟨.Number, ['2']⟩, ⟨.RParen, [')']⟩, tEND]
    [⟨.Number, ['2']⟩, ⟨.RParen, [')']⟩, tEND] [tEND] ⟨.Comma, [',']⟩ ⟨.RParen, [')']⟩
    (by rfl) (by rfl) (by rfl) (by rfl)

/-! ### Claim C5: unsupported function names -/

/-- C5 counterexample.  The claim — every identifier not in the dispatch
allow-list raises an unsupported-function error when called, with no silent
pass-through — is false in the generic-dispatch variant: `func2jsfunc` is
an object literal, the bracket lookup reaches the members inherited from
`Object.prototype`, so for the non-allow-listed name `toString` the
`js == null` guard does not fire and `toString(1)` is passed through to the
output (with the inherited function string-coerced) instead of raising the
unsupported-function error. -/
theorem unsupported_function_counterexample :
    IndiConvV2.indicatorToJs "toString(1)".data =
      .ok "function toString() \x7b [native code] \x7d(1)".data ∧
    ¬(IndiConvV2.indicatorToJs "toString(1)".data =
      .error (.unsupportedFunction "Unsupported function: toString")) := by
  refine ⟨rfl, ?_⟩
  rw [show IndiConvV2.indicatorToJs "toString(1)".data =
    .ok "function toString() \x7b [native code] \x7d(1)".data from rfl]
  simp

/-- C5, as amended.  In the main variant every name other than `INCLUDES`,
`PERCENT` and `COUNTFORMS` raises the unsupported-function error (`FOO(1)`
end-to-end), and no unrecognized call is passed through.  In the
generic-dispatch variant, a name whose `func2jsfunc` lookup is null —
neither the own property `SUM` nor a member inherited from
`Object.prototype` — raises the unsupported-function error (`FOO(1)`
end-to-end); but for every name inherited from `Object.prototype` the
lookup is non-null, so such calls are not rejected: they are silently
passed through with the inherited member string-coerced into the output,
as `hasOwnProperty()` end-to-end. -/
theorem unsupported_function_amended :
    (∀ (fuel : Nat) (name : List Char) (toks : List Token),
      ¬(name = "INCLUDES".data ∨ name = "PERCENT".data ∨ name = "COUNTFORMS".data) →
      parseFunctionCall (fuel + 1) name toks =
        .error (.unsupportedFunction ("unsupported function: " ++ ofChars name))) ∧
    indicatorToJs "FOO(1)".data = .error (.unsupportedFunction "unsupported function: FOO") ∧
    (∀ (fuel : Nat) (name : List Char) (toks : List Token),
      IndiConvV2.func2jsfunc name = none →
      IndiConvV2.parseFunctionCall (fuel + 1) name toks =
        .error (.unsupportedFunction ("Unsupported function: " ++ ofChars name))) ∧
    IndiConvV2.indicatorToJs "FOO(1)".data =
      .error (.unsupportedFunction "Unsupported function: FOO") ∧
    (∀ name ∈ (["constructor".data, "hasOwnProperty".data, "isPrototypeOf".data,
        "propertyIsEnumerable".data, "toLocaleString".data, "toString".data,
        "valueOf".data, "__defineGetter__".data, "__defineSetter__".data,
        "__lookupGetter__".data, "__lookupSetter__".data, "__proto__".data] :
        List (List Char)),
      ¬(IndiConvV2.func2jsfunc name = none)) ∧
    IndiConvV2.indicatorToJs "hasOwnProperty()".data =
      .ok "function hasOwnProperty() \x7b [native code] \x7d()".data := by
  refine ⟨?_, rfl, ?_, rfl, by decide, rfl⟩
  · intro fuel name toks h
    push_neg at h
    obtain ⟨h1, h2, h3⟩ := h
    simp only [parseFunctionCall, if_neg h1, if_neg h2, if_neg h3]
  · intro fuel name toks h
    simp only [IndiConvV2.parseFunctionCall, h]

/-- Witness for C5 as amended: `FOO` is rejected by both dispatchers, and
the `toString` lookup is non-null (the prototype-chain leak). -/
theorem unsupported_function_amended_witness :
    parseFunctionCall 1 "FOO".data [] =
      .error (.unsupportedFunction "unsupported function: FOO") ∧
    IndiConvV2.parseFunctionCall 1 "FOO".data [] =
      .error (.unsupportedFunction "Unsupported function: FOO") ∧
    ¬(IndiConvV2.func2jsfunc "toString".data = none) :=
  ⟨unsupported_function_amended.1 0 "FOO".data [] (by decide),
   unsupported_function_amended.2.2.1 0 "FOO".data [] (by rfl),
   unsupported_function_amended.2.2.2.2.1 "toString".data (by decide)⟩

/-! ### Claim C6: empty argument lists and empty arrays -/

/-- C6.  `parseList` returns the empty string whenever the next token is
immediately a closing `RParen` or `RBracket`; consequently `F()` for an
allow-listed comma-list function translates to the call with nothing
between the parentheses (shown generically over the dispatch table and
end-to-end for `SUM()`), and the empty array literal `[]` translates to
`[]`. -/
theorem empty_list_translation :
    (∀ (fuel : Nat) (expectedEnd : TokenType) (t : Token) (rest : List Token),
      (expectedEnd = .Comma ∨ expectedEnd = .RBracket) →
      (t.type = .RParen ∨ t.type = .RBracket) →
      parseList (fuel + 1) expectedEnd (t :: rest) = .ok ([], t :: rest)) ∧
    (∀ (fuel : Nat) (name js : List Char) (rest : List Token),
      IndiConvV2.func2jsfunc name = some js →
      IndiConvV2.parseFunctionCall (fuel + 2) name
          (⟨.LParen, ['(']⟩ :: ⟨.RParen, [')']⟩ :: rest) =
        .ok (js ++ "()".data, rest)) ∧
    indicatorToJs "[]".data = .ok "[]".data ∧
    IndiConvV2.indicatorToJs "SUM()".data = .ok "sumConditionalOccurrences()".data := by
  refine ⟨?_, ?_, rfl, rfl⟩
  · intro fuel expectedEnd t rest hend ht
    simp [parseList, hend, ht]
  · intro fuel name js rest h
    simp [IndiConvV2.parseFunctionCall, h, IndiConvV2.consume, IndiConvV2.parseList]

/-- Witness for C6: an empty function-argument list and the `SUM` entry. -/
theorem empty_list_translation_witness :
    parseList 1 .Comma [⟨.RParen, [')']⟩, tEND] = .ok ([], [⟨.RParen, [')']⟩, tEND]) ∧
    IndiConvV2.parseFunctionCall 2 "SUM".data
        (⟨.LParen, ['(']⟩ :: ⟨.RParen, [')']⟩ :: [tEND]) =
      .ok ("sumConditionalOccurrences()".data, [tEND]) :=
  ⟨empty_list_translation.1 0 .Comma ⟨.RParen, [')']⟩ [tEND] (by decide) (by decide),
   empty_list_translation.2.1 0 "SUM".data "sumConditionalOccurrences".data [tEND] (by rfl)⟩

/-! ### Claim C7: unbalanced and premature-end inputs -/

/-- C7.  Unbalanced or prematurely ended inputs raise a descriptive error —
`(1 + 2` and `1 AND` the end-of-stream error, the unterminated `"abc` the
lexical error naming the offending remainder — never a crash (`underflow`)
nor a truncated success. -/
theorem premature_end_errors :
    indicatorToJs "(1 + 2".data = .error .unexpectedEndOfStream ∧
    indicatorToJs "1 AND".data = .error .unexpectedEndOfStream ∧
    indicatorToJs "\"abc".data = .error (.lexical "unterminated string literal in: \"abc") :=
  ⟨rfl, rfl, rfl⟩

/-! ### Shared single-step lemmas for the tokenizer and parser loops -/

theorem firstToken_plus (t : List Char) : firstToken ('+' :: t) = .ok ⟨.Plus, ['+']⟩ := by
  simp [firstToken]

theorem firstToken_minus (t : List Char) : firstToken ('-' :: t) = .ok ⟨.Minus, ['-']⟩ := by
  simp [firstToken]

theorem firstToken_bang {d : Char} (r : List Char) (hd : ¬(d = '=')) :
    firstToken ('!' :: d :: r) = .ok ⟨.Not, ['!']⟩ := by
  simp [firstToken, hd]

/-- One non-END step of the tokenize loop, under a trim-invariant input. -/
theorem tokenizeFuel_step {s : List Char} {tok : Token} (fuel : Nat)
    (hs : trim s = s) (htk : firstToken s = .ok tok) (hty : ¬(tok.type = .END)) :
    tokenizeFuel (fuel + 1) s =
      match tokenizeFuel fuel (s.drop tok.text.length) with
      | .error e => .error e
      | .ok ts => .ok (tok :: ts) := by
  simp only [tokenizeFuel, hs, htk, if_neg hty]

/-- A number token at a primary position passes through. -/
theorem parsePrimary_num {fuel : Nat} {text : List Char} {rest : List Token} :
    parsePrimary (fuel + 1) ((⟨.Number, text⟩ : Token) :: rest) = .ok (text, rest) := by
  simp [parsePrimary]

/-- A `!` at a primary position prepends `!` and loops back to the primary. -/
theorem parsePrimary_not_step {fuel : Nat} {rest toks : List Token} {js : List Char}
    (h : parsePrimary fuel rest = .ok (js, toks)) :
    parsePrimary (fuel + 1) ((⟨.Not, ['!']⟩ : Token) :: rest) = .ok ('!' :: js, toks) := by
  simp only [parsePrimary, h]

theorem parseExpression_end_step (fuel : Nat) (toks : List Token) :
    parseExpression (fuel + 1) .END toks = parseExpressionGo fuel .END [] toks := by
  simp [parseExpression]

/-- The expression loop returns after a primary when the peeked token ends
the expression (the end token is not consumed). -/
theorem parseExpressionGo_done {fuel : Nat} {expectedEnd : TokenType} {js : List Char}
    {toks toks1 rest2 : List Token} {pjs : List Char} {next : Token}
    (hp : parsePrimary fuel toks = .ok (pjs, toks1)) (hn : toks1 = next :: rest2)
    (he : isExprEnd next.type expectedEnd) :
    parseExpressionGo (fuel + 1) expectedEnd js toks = .ok (js ++ pjs, toks1) := by
  subst hn
  simp only [parseExpressionGo, hp]
  rw [if_pos he]

/-- The expression loop consumes one binary operator after a primary and
continues with the operator's translation appended. -/
theorem parseExpressionGo_op_step {fuel : Nat} {expectedEnd : TokenType} {js : List Char}
    {toks rest2 : List Token} {pjs opJs : List Char} {next : Token}
    (hp : parsePrimary fuel toks = .ok (pjs, next :: rest2))
    (he : ¬isExprEnd next.type expectedEnd)
    (hop : parseOperator next rest2 = .ok opJs) :
    parseExpressionGo (fuel + 1) expectedEnd js toks =
      parseExpressionGo fuel expectedEnd (js ++ pjs ++ opJs) rest2 := by
  simp only [parseExpressionGo, hp]
  rw [if_neg he]
  simp only [hop]

/-! ### Claim C8: unary signs -/

theorem tokenize_sign {sgn : Char} {c : Char} {t : List Char} {ty : TokenType}
    (hs : sgn = '+' ∧ ty = .Plus ∨ sgn = '-' ∧ ty = .Minus)
    (hc : isIdentStart c = true) (ht : ∀ x ∈ t, isWordChar x = true) :
    tokenize (sgn :: c :: t) = .ok [⟨ty, [sgn]⟩, ⟨.Indent, c :: t⟩, tEND] := by
  have hno : ∀ x ∈ sgn :: c :: t, wsChar x = false := by
    intro x hx
    rw [List.mem_cons] at hx
    rcases hx with rfl | hx
    · rcases hs with ⟨rfl, _⟩ | ⟨rfl, _⟩ <;> decide
    · exact validIdent_no_ws hc ht x hx
  have hrest : tokenizeFuel (t.length + 2) (c :: t) = .ok [⟨.Indent, c :: t⟩, tEND] :=
    tokenize_ident hc ht
  show tokenizeFuel ((sgn :: c :: t).length + 1) (sgn :: c :: t) = _
  rw [show (sgn :: c :: t).length + 1 = (t.length + 2) + 1 from by simp]
  rcases hs with ⟨rfl, rfl⟩ | ⟨rfl, rfl⟩
  · rw [tokenizeFuel_step _ (trim_no_ws hno) (firstToken_plus (c :: t)) (by decide)]
    simp [hrest]
  · rw [tokenizeFuel_step _ (trim_no_ws hno) (firstToken_minus (c :: t)) (by decide)]
    simp [hrest]

/-- C8.  Two consecutive unary sign tokens at an operand position are a
syntax error (`--1`, `+-x` raise the unexpected-token error naming the
second sign and the unparsed remainder), while a single unary sign followed
by an operand is accepted and passed through. -/
theorem double_sign_error :
    indicatorToJs "--1".data =
      .error (.unexpectedToken "unexpected token at the start of:  - 1") ∧
    indicatorToJs "+-x".data =
      .error (.unexpectedToken "unexpected token at the start of:  - x") ∧
    (∀ (sgn : Char) (s : List Char), (sgn = '+' ∨ sgn = '-') → validIdentB s = true →
      indicatorToJs (sgn :: s) = .ok (sgn :: s)) := by
  refine ⟨rfl, rfl, ?_⟩
  intro sgn s hs h
  obtain ⟨c, t, rfl, hc, ht⟩ := validIdent_parts h
  rcases hs with rfl | rfl
  · simp only [indicatorToJs, tokenize_sign (Or.inl ⟨rfl, rfl⟩) hc ht]
    simp [parseExpression, parseExpressionGo, parsePrimary, isExprEnd, tEND]
  · simp only [indicatorToJs, tokenize_sign (Or.inr ⟨rfl, rfl⟩) hc ht]
    simp [parseExpression, parseExpressionGo, parsePrimary, isExprEnd, tEND]

/-- Witness for C8: the accepted single-sign case at `-x`. -/
theorem double_sign_error_witness : indicatorToJs "-x".data = .ok "-x".data :=
  double_sign_error.2.2 '-' "x".data (Or.inr rfl) (by decide)

/-! ### Claim C10: repeated logical negation -/

theorem tokenizeFuel_bangs {c : Char} {t : List Char}
    (hc : isIdentStart c = true) (ht : ∀ x ∈ t, isWordChar x = true) :
    ∀ n : Nat, tokenizeFuel (n + (t.length + 2)) (List.replicate n '!' ++ c :: t) =
      .ok (List.replicate n (⟨.Not, ['!']⟩ : Token) ++ [⟨.Indent, c :: t⟩, tEND]) := by
  intro n
  induction n with
  | zero => simpa using (tokenize_ident hc ht : tokenizeFuel (t.length + 2) (c :: t) = _)
  | succ n ih =>
    have hno : ∀ x ∈ List.replicate (n + 1) '!' ++ c :: t, wsChar x = false := by
      intro x hx
      rw [List.mem_append] at hx
      rcases hx with hx | hx
      · rw [List.eq_of_mem_replicate hx]; decide
      · exact validIdent_no_ws hc ht x hx
    have hhead : firstToken (List.replicate (n + 1) '!' ++ c :: t) = .ok ⟨.Not, ['!']⟩ := by
      cases n with
      | zero => simpa using firstToken_bang t (ne_of_class hc '=' (by decide))
      | succ m =>
        rw [List.replicate_succ, List.cons_append, List.replicate_succ, List.cons_append]
        exact firstToken_bang _ (by decide)
    rw [show n + 1 + (t.length + 2) = (n + (t.length + 2)) + 1 from by omega]
    rw [tokenizeFuel_step _ (trim_no_ws hno) hhead (by decide)]
    simp [List.replicate_succ, ih]

theorem parsePrimary_bangs {c : Char} {t : List Char} :
    ∀ (n fuel : Nat),
      parsePrimary (n + fuel + 1)
          (List.replicate n (⟨.Not, ['!']⟩ : Token) ++ [⟨.Indent, c :: t⟩, tEND]) =
        .ok (List.replicate n '!' ++ c :: t, [tEND]) := by
  intro n
  induction n with
  | zero => intro fuel; simp [parsePrimary, tEND]
  | succ n ih =>
    intro fuel
    rw [show n + 1 + fuel + 1 = (n + fuel + 1) + 1 from by omega]
    simp only [List.replicate_succ, List.cons_append]
    rw [parsePrimary_not_step (ih fuel)]

/-- C10.  Unlike consecutive signs, any number of consecutive `!` tokens is
accepted at an operand position: `!^n name` is a valid formula and
translates to itself, because the unary-`!` production loops back to
another primary with no adjacency check. -/
theorem repeated_negation_accepted : ∀ (n : Nat) (s : List Char), validIdentB s = true →
    indicatorToJs (List.replicate n '!' ++ s) = .ok (List.replicate n '!' ++ s) := by
  intro n s h
  obtain ⟨c, t, rfl, hc, ht⟩ := validIdent_parts h
  have htok : tokenize (List.replicate n '!' ++ c :: t) =
      .ok (List.replicate n (⟨.Not, ['!']⟩ : Token) ++ [⟨.Indent, c :: t⟩, tEND]) := by
    show tokenizeFuel ((List.replicate n '!' ++ c :: t).length + 1) _ = _
    rw [show (List.replicate n '!' ++ c :: t).length + 1 = n + (t.length + 2) from by
      simp; omega]
    exact tokenizeFuel_bangs hc ht n
  have hparse : parseExpression
      (8 * (List.replicate n (⟨.Not, ['!']⟩ : Token) ++ [⟨.Indent, c :: t⟩, tEND]).length + 32)
      .END (List.replicate n (⟨.Not, ['!']⟩ : Token) ++ [⟨.Indent, c :: t⟩, tEND]) =
      .ok (List.replicate n '!' ++ c :: t, [tEND]) := by
    rw [show 8 * (List.replicate n (⟨.Not, ['!']⟩ : Token) ++
        [⟨.Indent, c :: t⟩, tEND]).length + 32 = ((n + (7 * n + 45) + 1) + 1) + 1 from by
      simp; omega]
    rw [parseExpression_end_step]
    rw [parseExpressionGo_done (parsePrimary_bangs n (7 * n + 45)) rfl
      (by simp [isExprEnd, tEND])]
    simp
  simp only [indicatorToJs, htok, hparse]

/-- Witness for C10 at the claim's own example: `!!x` translates to `!!x`. -/
theorem repeated_negation_accepted_witness : indicatorToJs "!!x".data = .ok "!!x".data :=
  repeated_negation_accepted 2 "x".data (by decide)

/-! ### Claim C1: binary operators -/

/-- Order preservation: the flat formula `1 op1 1 op2 1 … opN 1`, as a token
stream, translates to `1` followed by each operator's translation and `1`,
in the source's left-to-right order. -/
theorem parseGo_ops (ops : List BinOp) : ∀ (fuel : Nat) (js : List Char),
    parseExpressionGo (2 * ops.length + 2 + fuel) .END js
        ((⟨.Number, ['1']⟩ : Token) :: opsTail ops) =
      .ok (js ++ '1' :: opsJs ops, [tEND]) := by
  induction ops with
  | nil =>
    intro fuel js
    rw [show 2 * ([] : List BinOp).length + 2 + fuel = (fuel + 1) + 1 from by simp; omega]
    simp only [opsTail]
    rw [parseExpressionGo_done parsePrimary_num rfl (by simp [isExprEnd, tEND])]
    simp [opsJs]
  | cons o tl ih =>
    intro fuel js
    rw [show 2 * (o :: tl).length + 2 + fuel = ((2 * tl.length + 2 + fuel) + 1) + 1 from by
      simp [List.length_cons]; omega]
    simp only [opsTail]
    have hne : ¬isExprEnd o.tok.type .END := by cases o <;> decide
    have hop : ∀ rest : List Token, parseOperator o.tok rest = .ok o.js := fun rest => by
      cases o <;> rfl
    rw [parseExpressionGo_op_step parsePrimary_num hne (hop _)]
    rw [show 2 * tl.length + 2 + fuel + 1 = 2 * tl.length + 2 + (fuel + 1) from by omega]
    rw [ih (fuel + 1) (js ++ ['1'] ++ o.js)]
    simp [opsJs]

/-- C1.  At a binary-operator position: every token of the contiguous
pass-through range `Plus`..`GreaterOrEq` (`+ - * / < <= > >=`) emits its own
text unchanged (with one space either side), the bare identifier `AND`
emits `&&`, `OR` emits `||`, `=` emits `===`, `!=` emits `!==`, and any
other token is an unexpected-token syntax error; moreover for every list of
operators the emissions appear in the output in the source's left-to-right
order, and a 12-operator formula end-to-end. -/
theorem operator_translation :
    (∀ (ops : List BinOp) (fuel : Nat),
      parseExpressionGo (2 * ops.length + 2 + fuel) .END []
          ((⟨.Number, ['1']⟩ : Token) :: opsTail ops) =
        .ok ('1' :: opsJs ops, [tEND])) ∧
    (∀ (tok : Token) (rest : List Token),
      TokenType.Plus.toNat ≤ tok.type.toNat ∧ tok.type.toNat ≤ TokenType.GreaterOrEq.toNat →
      parseOperator tok rest = .ok (' ' :: tok.text ++ [' '])) ∧
    (∀ rest : List Token, parseOperator ⟨.Indent, "AND".data⟩ rest = .ok " && ".data) ∧
    (∀ rest : List Token, parseOperator ⟨.Indent, "OR".data⟩ rest = .ok " || ".data) ∧
    (∀ (text : List Char) (rest : List Token),
      parseOperator ⟨.Equal, text⟩ rest = .ok " === ".data) ∧
    (∀ (text : List Char) (rest : List Token),
      parseOperator ⟨.NotEqual, text⟩ rest = .ok " !== ".data) ∧
    (∀ (tok : Token) (rest : List Token), ¬isBinOpTok tok →
      parseOperator tok rest = .error (unexpectedTokenError tok rest)) ∧
    indicatorToJs "1 + 2 * 3 AND 4 = 5 OR 6 != 7 < 8 <= 9 > 1 >= 2 - 3 / 4".data =
      .ok "1 + 2 * 3 && 4 === 5 || 6 !== 7 < 8 <= 9 > 1 >= 2 - 3 / 4".data := by
  refine ⟨?_, ?_, fun rest => rfl, fun rest => rfl, fun text rest => rfl,
    fun text rest => rfl, ?_, rfl⟩
  · intro ops fuel
    simpa using parseGo_ops ops fuel []
  · intro tok rest h
    simp only [parseOperator]
    rw [if_pos h]
  · intro tok rest h
    obtain ⟨ty, text⟩ := tok
    unfold isBinOpTok at h
    push_neg at h
    cases ty <;> simp_all [parseOperator, TokenType.toNat]

/-- Witness for C1: a pass-through operator, a rejected operator-position
token, and a two-operator order-preservation instance. -/
theorem operator_translation_witness :
    parseOperator ⟨.Mul, ['*']⟩ [] = .ok " * ".data ∧
    parseOperator ⟨.String, "s".data⟩ [] =
      .error (unexpectedTokenError ⟨.String, "s".data⟩ []) ∧
    parseExpressionGo 8 .END [] ((⟨.Number, ['1']⟩ : Token) :: opsTail [BinOp.and, BinOp.plus]) =
      .ok ('1' :: opsJs [BinOp.and, BinOp.plus], [tEND]) :=
  ⟨operator_translation.2.1 ⟨.Mul, ['*']⟩ [] (by decide),
   operator_translation.2.2.2.2.2.2.1 ⟨.String, "s".data⟩ [] (by decide),
   operator_translation.1 [BinOp.and, BinOp.plus] 2⟩

/-! ### Claim C9: tokenizer invariants -/

theorem occursIn_trans {a b c : List Char} (h1 : occursIn a b) (h2 : occursIn b c) :
    occursIn a c := by
  obtain ⟨u1, v1, rfl⟩ := h1
  obtain ⟨u2, v2, rfl⟩ := h2
  exact ⟨u2 ++ u1, v1 ++ v2, by simp⟩

theorem trimLeft_occursIn (s : List Char) : occursIn (trimLeft s) s :=
  ⟨s.takeWhile wsChar, [], by simp [trimLeft, List.takeWhile_append_dropWhile]⟩

theorem trimRight_occursIn (s : List Char) : occursIn (trimRight s) s := by
  refine ⟨[], (List.takeWhile wsChar s.reverse).reverse, ?_⟩
  unfold trimRight
  calc s = s.reverse.reverse := by simp
    _ = (List.takeWhile wsChar s.reverse ++ List.dropWhile wsChar s.reverse).reverse := by
        rw [List.takeWhile_append_dropWhile]
    _ = (List.dropWhile wsChar s.reverse).reverse ++ (List.takeWhile wsChar s.reverse).reverse := by
        rw [List.reverse_append]
    _ = _ := by simp

theorem trim_occursIn (s : List Char) : occursIn (trim s) s :=
  occursIn_trans (trimRight_occursIn (trimLeft s)) (trimLeft_occursIn s)

theorem drop_occursIn (n : Nat) (s : List Char) : occursIn (s.drop n) s :=
  ⟨s.take n, [], by simp⟩

theorem strBodyFuel_nil (fuel : Nat) : strBodyFuel fuel [] = none := by
  cases fuel <;> rfl

/-- A successful string-body match splits its input: the token text of a
string literal is an exact prefix of the scanned remainder. -/
theorem strBodyFuel_spec : ∀ (fuel : Nat) (s m r : List Char),
    strBodyFuel fuel s = some (m, r) → s = m ++ r := by
  intro fuel
  induction fuel with
  | zero => intro s m r h; simp [strBodyFuel] at h
  | succ fuel ih =>
    intro s m r h
    cases s with
    | nil => simp [strBodyFuel] at h
    | cons c t =>
      cases t with
      | nil =>
        simp only [strBodyFuel, strBodyFuel_nil] at h
        by_cases hq : c = '"'
        · rw [if_pos hq] at h
          simp only [Option.some.injEq, Prod.mk.injEq] at h
          obtain ⟨rfl, rfl⟩ := h
          simp [hq]
        · rw [if_neg hq] at h
          by_cases hb : c = '\\'
          · rw [if_pos hb] at h; cases h
          · rw [if_neg hb] at h; cases h
      | cons c2 t2 =>
        simp only [strBodyFuel] at h
        by_cases hq : c = '"'
        · rw [if_pos hq] at h
          simp only [Option.some.injEq, Prod.mk.injEq] at h
          obtain ⟨rfl, rfl⟩ := h
          simp [hq]
        · rw [if_neg hq] at h
          by_cases hb : c = '\\'
          · rw [if_pos hb] at h
            by_cases he : c2 = '\\' ∨ c2 = '"'
            · rw [if_pos he] at h
              cases h2 : strBodyFuel fuel t2 with
              | some p =>
                obtain ⟨m2, r2⟩ := p
                rw [h2] at h
                simp only [Option.some.injEq, Prod.mk.injEq] at h
                obtain ⟨rfl, rfl⟩ := h
                simp [ih t2 m2 r2 h2]
              | none =>
                rw [h2] at h
                cases h3 : strBodyFuel fuel (c2 :: t2) with
                | some p =>
                  obtain ⟨m2, r2⟩ := p
                  rw [h3] at h
                  simp only [Option.some.injEq, Prod.mk.injEq] at h
                  obtain ⟨rfl, rfl⟩ := h
                  simpa using ih _ m2 r2 h3
                | none => rw [h3] at h; cases h
            · rw [if_neg he] at h
              cases h3 : strBodyFuel fuel (c2 :: t2) with
              | some p =>
                obtain ⟨m2, r2⟩ := p
                rw [h3] at h
                simp only [Option.some.injEq, Prod.mk.injEq] at h
                obtain ⟨rfl, rfl⟩ := h
                simpa using ih _ m2 r2 h3
              | none => rw [h3] at h; cases h
          · rw [if_neg hb] at h
            cases h3 : strBodyFuel fuel (c2 :: t2) with
            | some p =>
              obtain ⟨m2, r2⟩ := p
              rw [h3] at h
              simp only [Option.some.injEq, Prod.mk.injEq] at h
              obtain ⟨rfl, rfl⟩ := h
              simpa using ih _ m2 r2 h3
            | none => rw [h3] at h; cases h

theorem scanFrac_spec (r : List Char) : r = (scanFrac r).1 ++ (scanFrac r).2 := by
  cases r with
  | nil => rfl
  | cons c t =>
    simp only [scanFrac]
    by_cases h : c = '.'
    · rw [if_pos h]
      by_cases hd : t.takeWhile isDigitChar = []
      · rw [if_pos hd]; simp
      · rw [if_neg hd]
        simp [List.takeWhile_append_dropWhile]
    · rw [if_neg h]; simp

theorem scanExpo_spec (r : List Char) : r = (scanExpo r).1 ++ (scanExpo r).2 := by
  cases r with
  | nil => rfl
  | cons c t =>
    cases t with
    | nil =>
      simp only [scanExpo]
      by_cases h : c = 'e' ∨ c = 'E'
      · rw [if_pos h]; simp
      · rw [if_neg h]; simp
    | cons c2 t2 =>
      simp only [scanExpo]
      by_cases h : c = 'e' ∨ c = 'E'
      · rw [if_pos h]
        by_cases hs : c2 = '+' ∨ c2 = '-'
        · rw [if_pos hs]
          by_cases hd : t2.takeWhile isDigitChar = []
          · rw [if_pos hd]; simp
          · rw [if_neg hd]
            simp [List.takeWhile_append_dropWhile]
        · rw [if_neg hs]
          by_cases hd : (c2 :: t2).takeWhile isDigitChar = []
          · rw [if_pos hd]; simp
          · rw [if_neg hd]
            simp [List.takeWhile_append_dropWhile]
      · rw [if_neg h]; simp

/-- A number token's text is an exact prefix of the scanned remainder. -/
theorem scanNumber_spec (s : List Char) : s = (scanNumber s).1 ++ (scanNumber s).2 := by
  simp only [scanNumber]
  conv_lhs => rw [← List.takeWhile_append_dropWhile (p := isDigitChar) (l := s)]
  conv_lhs => rw [scanFrac_spec (s.dropWhile isDigitChar)]
  conv_lhs => rw [scanExpo_spec (scanFrac (s.dropWhile isDigitChar)).2]
  simp [List.append_assoc]

theorem scanNumber_ne {c : Char} (t : List Char) (hd : isDigitChar c = true) :
    (scanNumber (c :: t)).1 ≠ [] := by
  simp only [scanNumber]
  simp [List.takeWhile_cons, hd]

end IndiConv

namespace IndiConv

/-- Every token `firstToken` produces is either the terminal `END` token
(empty text) or has non-empty text that is an exact prefix of its input. -/
theorem firstToken_spec {s : List Char} {tok : Token} (h : firstToken s = .ok tok) :
    tok = tEND ∨ (¬(tok.type = .END) ∧ tok.text ≠ [] ∧ ∃ r, s = tok.text ++ r) := by
  cases s with
  | nil =>
    left
    simp only [firstToken] at h
    obtain rfl := Except.ok.inj h
    rfl
  | cons c t =>
    right
    simp only [firstToken] at h
    by_cases h1 : c = '('
    · rw [if_pos h1] at h
      obtain rfl := Except.ok.inj h
      exact ⟨by simp, by simp, t, by simp [h1]⟩
    rw [if_neg h1] at h
    by_cases h2 : c = ')'
    · rw [if_pos h2] at h
      obtain rfl := Except.ok.inj h
      exact ⟨by simp, by simp, t, by simp [h2]⟩
    rw [if_neg h2] at h
    by_cases h3 : c = '['
    · rw [if_pos h3] at h
      obtain rfl := Except.ok.inj h
      exact ⟨by simp, by simp, t, by simp [h3]⟩
    rw [if_neg h3] at h
    by_cases h4 : c = ']'
    · rw [if_pos h4] at h
      obtain rfl := Except.ok.inj h
      exact ⟨by simp, by simp, t, by simp [h4]⟩
    rw [if_neg h4] at h
    by_cases h5 : c = ','
    · rw [if_pos h5] at h
      obtain rfl := Except.ok.inj h
      exact ⟨by simp, by simp, t, by simp [h5]⟩
    rw [if_neg h5] at h
    by_cases h6 : c = '+'
    · rw [if_pos h6] at h
      obtain rfl := Except.ok.inj h
      exact ⟨by simp, by simp, t, by simp [h6]⟩
    rw [if_neg h6] at h
    by_cases h7 : c = '-'
    · rw [if_pos h7] at h
      obtain rfl := Except.ok.inj h
      exact ⟨by simp, by simp, t, by simp [h7]⟩
    rw [if_neg h7] at h
    by_cases h8 : c = '*'
    · rw [if_pos h8] at h
      obtain rfl := Except.ok.inj h
      exact ⟨by simp, by simp, t, by simp [h8]⟩
    rw [if_neg h8] at h
    by_cases h9 : c = '/'
    · rw [if_pos h9] at h
      obtain rfl := Except.ok.inj h
      exact ⟨by simp, by simp, t, by simp [h9]⟩
    rw [if_neg h9] at h
    by_cases h10 : c = '<'
    · rw [if_pos h10] at h
      by_cases h10b : t.head? = some '='
      · rw [if_pos h10b] at h
        obtain rfl := Except.ok.inj h
        obtain ⟨t2, rfl⟩ : ∃ t2, t = '=' :: t2 := by
          cases t with
          | nil => simp at h10b
          | cons a b =>
            simp only [List.head?_cons, Option.some.injEq] at h10b
            exact ⟨b, by rw [h10b]⟩
        exact ⟨by simp, by simp, t2, by simp [h10]⟩
      · rw [if_neg h10b] at h
        obtain rfl := Except.ok.inj h
        exact ⟨by simp, by simp, t, by simp [h10]⟩
    rw [if_neg h10] at h
    by_cases h11 : c = '>'
    · rw [if_pos h11] at h
      by_cases h11b : t.head? = some '='
      · rw [if_pos h11b] at h
        obtain rfl := Except.ok.inj h
        obtain ⟨t2, rfl⟩ : ∃ t2, t = '=' :: t2 := by
          cases t with
          | nil => simp at h11b
          | cons a b =>
            simp only [List.head?_cons, Option.some.injEq] at h11b
            exact ⟨b, by rw [h11b]⟩
        exact ⟨by simp, by simp, t2, by simp [h11]⟩
      · rw [if_neg h11b] at h
        obtain rfl := Except.ok.inj h
        exact ⟨by simp, by simp, t, by simp [h11]⟩
    rw [if_neg h11] at h
    by_cases h12 : c = '='
    · rw [if_pos h12] at h
      obtain rfl := Except.ok.inj h
      exact ⟨by simp, by simp, t, by simp [h12]⟩
    rw [if_neg h12] at h
    by_cases h13 : c = '!'
    · rw [if_pos h13] at h
      by_cases h13b : t.head? = some '='
      · rw [if_pos h13b] at h
        obtain rfl := Except.ok.inj h
        obtain ⟨t2, rfl⟩ : ∃ t2, t = '=' :: t2 := by
          cases t with
          | nil => simp at h13b
          | cons a b =>
            simp only [List.head?_cons, Option.some.injEq] at h13b
            exact ⟨b, by rw [h13b]⟩
        exact ⟨by simp, by simp, t2, by simp [h13]⟩
      · rw [if_neg h13b] at h
        obtain rfl := Except.ok.inj h
        exact ⟨by simp, by simp, t, by simp [h13]⟩
    rw [if_neg h13] at h
    by_cases h14 : c = '$'
    · rw [if_pos h14] at h
      cases t with
      | nil => simp at h
      | cons c1 t1 =>
        by_cases hid : isIdentStart c1 = true
        · simp only [hid, if_true] at h
          obtain rfl := Except.ok.inj h
          refine ⟨by simp, by simp, t1.dropWhile isWordChar, ?_⟩
          simp [h14, List.takeWhile_append_dropWhile]
        · simp only [hid, if_false] at h
          simp at h
    rw [if_neg h14] at h
    by_cases h15 : c = '"'
    · rw [if_pos h15] at h
      cases hsb : strBody t with
      | none => rw [hsb] at h; simp at h
      | some p =>
        obtain ⟨m, r2⟩ := p
        rw [hsb] at h
        simp only [] at h
        obtain rfl := Except.ok.inj h
        refine ⟨by simp, by simp, r2, ?_⟩
        have := strBodyFuel_spec (t.length + 1) t m r2 hsb
        simp [h15, this]
    rw [if_neg h15] at h
    by_cases h16 : isDigitChar c = true
    · rw [if_pos h16] at h
      obtain rfl := Except.ok.inj h
      exact ⟨by simp, scanNumber_ne t h16, (scanNumber (c :: t)).2, scanNumber_spec _⟩
    rw [if_neg h16] at h
    by_cases h17 : isIdentStart c = true
    · rw [if_pos h17] at h
      obtain rfl := Except.ok.inj h
      refine ⟨by simp, by simp, t.dropWhile isWordChar, ?_⟩
      simp [List.takeWhile_append_dropWhile]
    rw [if_neg h17] at h
    by_cases h18 : wsChar c = true
    · rw [if_pos h18] at h
      simp at h
    rw [if_neg h18] at h
    simp at h

end IndiConv

namespace IndiConv

theorem tokenizeFuel_spec : ∀ (fuel : Nat) (s : List Char) (toks : List Token),
    tokenizeFuel fuel s = .ok toks →
    ∃ ts, toks = ts ++ [tEND] ∧
      ∀ tk ∈ ts, ¬(tk.type = .END) ∧ tk.text ≠ [] ∧ occursIn tk.text s := by
  intro fuel
  induction fuel with
  | zero => intro s toks h; simp [tokenizeFuel] at h
  | succ fuel ih =>
    intro s toks h
    simp only [tokenizeFuel] at h
    cases hft : firstToken (trim s) with
    | error e => simp only [hft] at h; exact absurd h (by simp)
    | ok tk =>
      simp only [hft] at h
      by_cases hty : tk.type = .END
      · rw [if_pos hty] at h
        obtain rfl := Except.ok.inj h
        rcases firstToken_spec hft with rfl | ⟨hne, _, _⟩
        · exact ⟨[], rfl, by simp⟩
        · exact absurd hty hne
      · rw [if_neg hty] at h
        cases hrec : tokenizeFuel fuel ((trim s).drop tk.text.length) with
        | error e => simp only [hrec] at h; exact absurd h (by simp)
        | ok ts2 =>
          simp only [hrec] at h
          obtain rfl := Except.ok.inj h
          obtain ⟨ts3, rfl, hall⟩ := ih _ _ hrec
          refine ⟨tk :: ts3, by simp, ?_⟩
          intro x hx
          rcases List.mem_cons.mp hx with rfl | hx2
          · rcases firstToken_spec hft with rfl | ⟨hne, hnn, r, hrr⟩
            · exact absurd rfl hty
            · exact ⟨hne, hnn, occursIn_trans ⟨[], r, hrr⟩ (trim_occursIn s)⟩
          · obtain ⟨ha, hb, hc⟩ := hall x hx2
            exact ⟨ha, hb,
              occursIn_trans hc (occursIn_trans (drop_occursIn _ _) (trim_occursIn s))⟩

/-- C9.  For every input on which `tokenize` returns without throwing, the
returned sequence is a list of tokens followed by exactly one terminal
`END` token (`END` occurs only as the final element, with empty text), and
every token before it has non-empty text that is an exact substring of the
input. -/
theorem tokenize_invariant : ∀ (s : List Char) (toks : List Token), tokenize s = .ok toks →
    ∃ ts, toks = ts ++ [tEND] ∧
      ∀ tk ∈ ts, ¬(tk.type = .END) ∧ tk.text ≠ [] ∧ occursIn tk.text s :=
  fun s toks h => tokenizeFuel_spec _ s toks h

/-- Witness for C9 at the input `1+2`. -/
theorem tokenize_invariant_witness :
    ∃ ts, ([⟨.Number, ['1']⟩, ⟨.Plus, ['+']⟩, ⟨.Number, ['2']⟩, tEND] : List Token) =
        ts ++ [tEND] ∧
      ∀ tk ∈ ts, ¬(tk.type = .END) ∧ tk.text ≠ [] ∧ occursIn tk.text "1+2".data :=
  tokenize_invariant "1+2".data [⟨.Number, ['1']⟩, ⟨.Plus, ['+']⟩, ⟨.Number, ['2']⟩, tEND]
    (by rfl)

end IndiConv
